import Mathlib

/-!
# Verification of the argos3 vtable plugin-dispatch facility

Shallow embedding of `src/core/utility/plugins/vtable.h`:

* `TagState.getTag`      embeds `GetTag<DERIVED, BASE>` together with the
  global state it reads and writes (`STagCounter<BASE>::Count` and the
  per-type `STagHolder<DERIVED, BASE>::Tag` cells);
* `vtableAdd`            embeds `CVTable::Add<DERIVED>`;
* `vtableGet`            embeds `CVTable::operator[]`;
* `holderAdd`            embeds `COperationInstanceHolder::Add<DERIVED>`;
* `holderGet`            embeds `COperationInstanceHolder::operator[]`;
* `regHook`              embeds the constructor body generated by
  `REGISTER_OPERATION` (vtable insertion followed by instance insertion);
* `callOperation`        embeds `CallOperation<CONTEXT, BASE, RETURN_VALUE>`.

C++ types are identified by a numeric `TypeId`.  A stored callable of the
C++ member-pointer type `FUNCTION` is modelled as `Option F` (with `none`
for the null pointer `0`), and a stored operation-instance pointer as
`Option I` (with `none` for `NULL`).  `std::vector` is modelled as `List`;
`resize(n, v)` with `n` larger than the current size appends `n - size`
copies of `v`.  A read past the end of a vector, and an invocation through
a null callable or a null instance pointer, are undefined behaviour in the
C++ source; the embedding makes those outcomes explicit as `none` results.
-/

abbrev TypeId := Nat

/-- Global tag-assignment state: `STagCounter<BASE>::Count` plus the map
`d ↦ STagHolder<const d, const BASE>::Tag`, with `0` the "unassigned"
sentinel, for one fixed root hierarchy `BASE`. -/
structure TagState where
  count : Nat
  tags : TypeId → Nat

/-- `GetTag<DERIVED, BASE>`: if the stored tag is zero, increment the root
counter and store the result; return the stored tag. -/
def TagState.getTag (s : TagState) (d : TypeId) : Nat × TagState :=
  if s.tags d = 0 then
    (s.count + 1,
     { count := s.count + 1,
       tags := fun x => if x = d then s.count + 1 else s.tags x })
  else
    (s.tags d, s)

/-- The tag state at program start: counter zero, every tag unassigned. -/
def freshTags : TagState :=
  { count := 0, tags := fun _ => 0 }

section Tables

variable {F I : Type}

/-- `CVTable<CONTEXT, BASE, FUNCTION>::Add<DERIVED>(t_function)`.
The table is `tbl`; the root type of the hierarchy is `root`.  The index is
`GetTag<DERIVED, BASE>()`; if it is not below the current size, the slot
for the root tag (or null) is used to fill the newly created slots, and
then the indexed slot is overwritten with the new function. -/
def vtableAdd (root d : TypeId) (f : F) :
    TagState × List (Option F) → TagState × List (Option F) :=
  fun s =>
    let ts := s.1
    let tbl := s.2
    let p := ts.getTag d
    let unIndex := p.1
    let ts1 := p.2
    if tbl.length ≤ unIndex then
      let q := ts1.getTag root
      let unBaseTag := q.1
      let ts2 := q.2
      let tDefault : Option F :=
        if unBaseTag < tbl.length then tbl.getD unBaseTag none else none
      (ts2, (tbl ++ List.replicate (unIndex + 1 - tbl.length) tDefault).set unIndex (some f))
    else
      (ts1, tbl.set unIndex (some f))

/-- `CVTable<CONTEXT, BASE, FUNCTION>::operator[](un_index)`.
An out-of-bounds index is replaced by `GetTag<BASE, BASE>()` (which may
mutate the tag state) and the vector is then indexed without any further
bounds check: a resulting out-of-range read — undefined behaviour in the
source — is reported as `none`; a performed read returns `some` of the
stored slot. -/
def vtableGet (root : TypeId) (ts : TagState) (tbl : List (Option F)) (i : Nat) :
    Option (Option F) × TagState :=
  if tbl.length ≤ i then
    let q := ts.getTag root
    (if q.1 < tbl.length then some (tbl.getD q.1 none) else none, q.2)
  else
    (some (tbl.getD i none), ts)

/-- `COperationInstanceHolder<CONTEXT, BASE, RETURN_TYPE>::Add<DERIVED>`.
Newly created slots are filled with `NULL`; the indexed slot is then
overwritten with the new operation instance. -/
def holderAdd (d : TypeId) (inst : I) :
    TagState × List (Option I) → TagState × List (Option I) :=
  fun s =>
    let ts := s.1
    let h := s.2
    let p := ts.getTag d
    let unIndex := p.1
    let ts1 := p.2
    if h.length ≤ unIndex then
      (ts1, (h ++ List.replicate (unIndex + 1 - h.length) none).set unIndex (some inst))
    else
      (ts1, h.set unIndex (some inst))

/-- `COperationInstanceHolder<CONTEXT, BASE, RETURN_TYPE>::operator[]`:
out-of-bounds indices return `NULL`. -/
def holderGet (h : List (Option I)) (i : Nat) : Option I :=
  if h.length ≤ i then none else h.getD i none

/-- The full registry state for one (context, root, signature) triple: the
shared tag-assignment state, the dispatch table (`CVTable`) and the
instance registry (`COperationInstanceHolder`). -/
structure SysState (F I : Type) where
  tag : TagState
  vt : List (Option F)
  hd : List (Option I)

/-- The state at program start: no tags assigned, both tables empty. -/
def freshSys : SysState F I :=
  { tag := freshTags, vt := [], hd := [] }

/-- The constructor body generated by
`REGISTER_OPERATION(CONTEXT, BASE, OPERATION, RETURN_VALUE, DERIVED)`:
first `GetVTable(...).Add<DERIVED>(&OPERATION::Hook)`, then
`GetOperationInstanceHolder(...).Add<DERIVED>(new OPERATION())`. -/
def regHook (root d : TypeId) (f : F) (inst : I) (s : SysState F I) : SysState F I :=
  let p := vtableAdd root d f (s.tag, s.vt)
  let q := holderAdd d inst (p.1, s.hd)
  { tag := q.1, vt := p.2, hd := q.2 }

/-- A sequence of registration hooks executed in order. -/
def runHooks (root : TypeId) (hs : List (TypeId × F × I)) (s : SysState F I) : SysState F I :=
  hs.foldl (fun s h => regHook root h.1 h.2.1 h.2.2 s) s

/-- `CallOperation<CONTEXT, BASE, RETURN_VALUE>(t_base)` for an operand
whose dynamic type is `obj`: read the tag of the operand (the virtual `GetTag()`
call), resolve the callable in the vtable, read the tag again, resolve the
instance in the holder, and invoke the callable on the instance.  The
result is the resolved (callable, instance) pair; `none` stands for the
undefined behaviour of an out-of-range vector read or of an invocation
through a null callable or null instance. -/
def callOperation (root obj : TypeId) (s : SysState F I) :
    SysState F I × Option (F × I) :=
  let p := s.tag.getTag obj
  let g := vtableGet root p.2 s.vt p.1
  let q := g.2.getTag obj
  let iopt := holderGet s.hd q.1
  match g.1 with
  | none => ({ tag := q.2, vt := s.vt, hd := s.hd }, none)
  | some fopt =>
    match fopt, iopt with
    | some f, some inst => ({ tag := q.2, vt := s.vt, hd := s.hd }, some (f, inst))
    | _, _ => ({ tag := q.2, vt := s.vt, hd := s.hd }, none)

/-- In the concrete `testing.cpp` scenario the stored callable is modelled
by the constant value that the corresponding `ApplyTo` returns, so the
value produced by a successful `CallOperation` is the first component of
the resolved pair. -/
def callValue (root obj : TypeId) (s : SysState Nat I) : Option Nat :=
  ((callOperation root obj s).2).map (fun p => p.1)

/-- One tag-assigner query (one `GetTag` call) per list element, executed
left to right; every `GetTag` call made anywhere in the program (by hooks,
by dispatch, or by the forced static tag setup at load time) is such a query. -/
def runQueries (qs : List TypeId) (s : TagState) : TagState :=
  qs.foldl (fun s d => (s.getTag d).2) s

/-- Invariant of the tag-assignment state: assigned tags never exceed the
counter, and distinct types never share a nonzero tag. -/
abbrev tagInv (s : TagState) : Prop :=
  (∀ d, s.tags d ≤ s.count) ∧
  (∀ d e, s.tags d ≠ 0 → s.tags d = s.tags e → d = e)

/-- Invariant maintained by registration hooks: the two tables have the
same length and agree on which slots are occupied, tags never exceed the
counter, and the table length is pinned to the counter (equal to it exactly
when the trailing slot would belong to the still uncreated tag of the
root itself). -/
abbrev hookInv (root : TypeId) (s : SysState F I) : Prop :=
  s.vt.length = s.hd.length ∧
  (∀ t, (s.vt.getD t none).isSome ↔ (s.hd.getD t none).isSome) ∧
  (∀ e, s.tag.tags e ≤ s.tag.count) ∧
  (s.vt.length = 0 ∧ s.tag.count = 0 ∨
   (s.tag.tags root ≠ 0 ∧
    (s.vt.length = s.tag.count + 1 ∨
     (s.vt.length = s.tag.count ∧ s.tag.tags root = s.tag.count))))

end Tables

/-! ## Basic lemmas about list slots (`getD` over `set`, `++`, `replicate`) -/

theorem getD_oob {α : Type} (l : List α) (a : α) {t : Nat} (h : l.length ≤ t) :
    l.getD t a = a := by
  induction l generalizing t with
  | nil => simp [List.getD_nil]
  | cons x xs ih =>
    cases t with
    | zero => simp at h
    | succ t => simpa [List.getD_cons_succ] using ih (Nat.le_of_succ_le_succ h)

theorem getD_append_lt {α : Type} (l l2 : List α) (a : α) {t : Nat} (h : t < l.length) :
    (l ++ l2).getD t a = l.getD t a := by
  induction l generalizing t with
  | nil => simp at h
  | cons x xs ih =>
    cases t with
    | zero => simp [List.getD_cons_zero]
    | succ t => simpa [List.getD_cons_succ] using ih (Nat.lt_of_succ_lt_succ h)

theorem getD_append_ge {α : Type} (l l2 : List α) (a : α) {t : Nat} (h : l.length ≤ t) :
    (l ++ l2).getD t a = l2.getD (t - l.length) a := by
  induction l generalizing t with
  | nil => simp
  | cons x xs ih =>
    cases t with
    | zero => simp at h
    | succ t => simpa [List.getD_cons_succ] using ih (Nat.le_of_succ_le_succ h)

theorem getD_replicate {α : Type} (x a : α) {n t : Nat} (h : t < n) :
    (List.replicate n x).getD t a = x := by
  induction n generalizing t with
  | zero => simp at h
  | succ n ih =>
    cases t with
    | zero => simp [List.replicate_succ, List.getD_cons_zero]
    | succ t =>
      simpa [List.replicate_succ, List.getD_cons_succ] using ih (Nat.lt_of_succ_lt_succ h)

theorem getD_set_self {α : Type} (l : List α) (x a : α) {i : Nat} (h : i < l.length) :
    (l.set i x).getD i a = x := by
  induction l generalizing i with
  | nil => simp at h
  | cons y ys ih =>
    cases i with
    | zero => simp [List.getD_cons_zero]
    | succ i => simpa [List.getD_cons_succ] using ih (Nat.lt_of_succ_lt_succ h)

theorem getD_set_ne {α : Type} (l : List α) (x a : α) {i t : Nat} (h : t ≠ i) :
    (l.set i x).getD t a = l.getD t a := by
  induction l generalizing i t with
  | nil => simp
  | cons y ys ih =>
    cases i with
    | zero =>
      cases t with
      | zero => exact absurd rfl h
      | succ t => simp [List.getD_cons_succ]
    | succ i =>
      cases t with
      | zero => simp [List.getD_cons_zero]
      | succ t =>
        simpa [List.getD_cons_succ] using ih (fun he => h (congrArg Nat.succ he))

/-! ## Lemmas about the tag assigner -/

theorem getTag_of_assigned {s : TagState} {d : TypeId} (h : s.tags d ≠ 0) :
    s.getTag d = (s.tags d, s) := by
  simp [TagState.getTag, h]

theorem getTag_of_unassigned {s : TagState} {d : TypeId} (h : s.tags d = 0) :
    s.getTag d =
      (s.count + 1,
       { count := s.count + 1,
         tags := fun x => if x = d then s.count + 1 else s.tags x }) := by
  simp [TagState.getTag, h]

theorem getTag_ne_zero (s : TagState) (d : TypeId) : (s.getTag d).1 ≠ 0 := by
  by_cases h : s.tags d = 0
  · rw [getTag_of_unassigned h]
    exact Nat.succ_ne_zero _
  · rw [getTag_of_assigned h]
    exact h

/-! ## Lemmas about the shape of a grown table -/

theorem grow_length {α : Type} (tbl : List α) (dflt x : α) {i : Nat}
    (h : tbl.length ≤ i) :
    ((tbl ++ List.replicate (i + 1 - tbl.length) dflt).set i x).length = i + 1 := by
  rw [List.length_set, List.length_append, List.length_replicate]
  omega

theorem grow_getD_lt {α : Type} (tbl : List α) (dflt x a : α) {i t : Nat}
    (h : tbl.length ≤ i) (ht : t < tbl.length) :
    ((tbl ++ List.replicate (i + 1 - tbl.length) dflt).set i x).getD t a = tbl.getD t a := by
  rw [getD_set_ne _ _ _ (Nat.ne_of_lt (Nat.lt_of_lt_of_le ht h)),
      getD_append_lt _ _ _ ht]

theorem grow_getD_mid {α : Type} (tbl : List α) (dflt x a : α) {i t : Nat}
    (h : tbl.length ≤ i) (h1 : tbl.length ≤ t) (h2 : t < i) :
    ((tbl ++ List.replicate (i + 1 - tbl.length) dflt).set i x).getD t a = dflt := by
  rw [getD_set_ne _ _ _ (Nat.ne_of_lt h2), getD_append_ge _ _ _ h1,
      getD_replicate]
  omega

theorem grow_getD_self {α : Type} (tbl : List α) (dflt x a : α) {i : Nat}
    (h : tbl.length ≤ i) :
    ((tbl ++ List.replicate (i + 1 - tbl.length) dflt).set i x).getD i a = x := by
  apply getD_set_self
  rw [List.length_append, List.length_replicate]
  omega

theorem grow_getD_gt {α : Type} (tbl : List α) (dflt x a : α) {i t : Nat}
    (h : tbl.length ≤ i) (ht : i < t) :
    ((tbl ++ List.replicate (i + 1 - tbl.length) dflt).set i x).getD t a = a := by
  apply getD_oob
  rw [List.length_set, List.length_append, List.length_replicate]
  omega

/-! ## Characterizations of the table operations when the tags involved
are already assigned -/

theorem vtableAdd_assigned {F : Type} (root d : TypeId) (f : F) (ts : TagState)
    (tbl : List (Option F)) (hd0 : ts.tags d ≠ 0) (hr0 : ts.tags root ≠ 0) :
    vtableAdd root d f (ts, tbl) =
      (ts,
       if tbl.length ≤ ts.tags d then
         (tbl ++ List.replicate (ts.tags d + 1 - tbl.length)
            (if ts.tags root < tbl.length then tbl.getD (ts.tags root) none else none)).set
           (ts.tags d) (some f)
       else tbl.set (ts.tags d) (some f)) := by
  simp only [vtableAdd, getTag_of_assigned hd0, getTag_of_assigned hr0]
  by_cases h : tbl.length ≤ ts.tags d <;> simp [h]

theorem holderAdd_assigned {I : Type} (d : TypeId) (inst : I) (ts : TagState)
    (h : List (Option I)) (hd0 : ts.tags d ≠ 0) :
    holderAdd d inst (ts, h) =
      (ts,
       if h.length ≤ ts.tags d then
         (h ++ List.replicate (ts.tags d + 1 - h.length) none).set (ts.tags d) (some inst)
       else h.set (ts.tags d) (some inst)) := by
  simp only [holderAdd, getTag_of_assigned hd0]
  by_cases hb : h.length ≤ ts.tags d <;> simp [hb]

theorem vtableGet_inbounds {F : Type} (root : TypeId) (ts : TagState)
    (tbl : List (Option F)) {i : Nat} (h : i < tbl.length) :
    vtableGet root ts tbl i = (some (tbl.getD i none), ts) := by
  simp [vtableGet, Nat.not_le_of_lt h]

theorem vtableGet_oob {F : Type} (root : TypeId) (ts : TagState)
    (tbl : List (Option F)) {i : Nat} (h : tbl.length ≤ i) (hr0 : ts.tags root ≠ 0) :
    vtableGet root ts tbl i =
      (if ts.tags root < tbl.length then some (tbl.getD (ts.tags root) none) else none,
       ts) := by
  simp [vtableGet, h, getTag_of_assigned hr0]

/-! ## Tag assigner: first-call/idempotence and uniqueness -/

/-- C8: For every (Derived, Root) pair, the first `GetTag` call increments
the counter of the root and stores and returns the new value; every subsequent
call returns that stored value without touching the counter or the state;
the returned tag is never the reserved sentinel zero. -/
theorem getTag_first_and_stable (s : TagState) (d : TypeId) :
    (s.getTag d).1 = (if s.tags d = 0 then s.count + 1 else s.tags d) ∧
    (s.getTag d).2.count = (if s.tags d = 0 then s.count + 1 else s.count) ∧
    (s.getTag d).2.tags d = (s.getTag d).1 ∧
    ((s.getTag d).2.getTag d).1 = (s.getTag d).1 ∧
    ((s.getTag d).2.getTag d).2 = (s.getTag d).2 ∧
    (s.getTag d).1 ≠ 0 := by
  by_cases h : s.tags d = 0
  · rw [getTag_of_unassigned h]
    have h2 : ({ count := s.count + 1,
                 tags := fun x => if x = d then s.count + 1 else s.tags x } :
                TagState).tags d ≠ 0 := by simp
    rw [getTag_of_assigned h2]
    simp [h]
  · rw [getTag_of_assigned h, getTag_of_assigned h]
    simp [h]

theorem getTag_preserves_assigned {s : TagState} {d : TypeId} (e : TypeId)
    (h : s.tags d ≠ 0) : ((s.getTag e).2).tags d = s.tags d := by
  by_cases he : s.tags e = 0
  · rw [getTag_of_unassigned he]
    have hde : d ≠ e := fun hde => h (hde ▸ he)
    simp [hde]
  · rw [getTag_of_assigned he]

theorem getTag_preserves_tagInv {s : TagState} (d : TypeId) (h : tagInv s) :
    tagInv ((s.getTag d).2) := by
  obtain ⟨hle, hinj⟩ := h
  by_cases hd : s.tags d = 0
  · rw [getTag_of_unassigned hd]
    constructor
    · intro e
      dsimp only
      split
      · exact Nat.le_refl _
      · exact Nat.le_succ_of_le (hle e)
    · intro e e2 hne heq
      dsimp only at hne heq
      by_cases h1 : e = d <;> by_cases h2 : e2 = d
      · exact h1.trans h2.symm
      · rw [if_pos h1, if_neg h2] at heq
        have := hle e2
        omega
      · rw [if_neg h1, if_pos h2] at heq
        have := hle e
        omega
      · rw [if_neg h1, if_neg h2] at heq
        rw [if_neg h1] at hne
        exact hinj _ _ hne heq
  · rw [getTag_of_assigned hd]
    exact ⟨hle, hinj⟩

theorem runQueries_cons (q : TypeId) (qs : List TypeId) (s : TagState) :
    runQueries (q :: qs) s = runQueries qs ((s.getTag q).2) := rfl

theorem runQueries_tagInv (qs : List TypeId) (s : TagState) (h : tagInv s) :
    tagInv (runQueries qs s) := by
  induction qs generalizing s with
  | nil => exact h
  | cons q qs ih => exact ih _ (getTag_preserves_tagInv q h)

theorem runQueries_preserves_assigned (qs : List TypeId) {s : TagState} {d : TypeId}
    (h : s.tags d ≠ 0) : (runQueries qs s).tags d = s.tags d := by
  induction qs generalizing s with
  | nil => rfl
  | cons q qs ih =>
    rw [runQueries_cons]
    have h2 := getTag_preserves_assigned (s := s) (d := d) q h
    rw [ih (by rw [h2]; exact h), h2]

theorem runQueries_assigns (qs : List TypeId) (s : TagState) {d : TypeId}
    (h : d ∈ qs) : (runQueries qs s).tags d ≠ 0 := by
  induction qs generalizing s with
  | nil => cases h
  | cons q qs ih =>
    rw [runQueries_cons]
    rcases List.mem_cons.mp h with h1 | h2
    · subst h1
      have ha : ((s.getTag d).2).tags d ≠ 0 := by
        by_cases hd : s.tags d = 0
        · rw [getTag_of_unassigned hd]
          simp
        · rw [getTag_of_assigned hd]
          exact hd
      rw [runQueries_preserves_assigned qs ha]
      exact ha
    · exact ih _ h2

theorem tagInv_fresh : tagInv freshTags :=
  ⟨fun _ => Nat.le_refl 0, fun _ _ hne _ => absurd rfl hne⟩

/-- C9: any two distinct concrete types queried against the same root
receive distinct positive tags, and the tag of a (concrete-type, root)
pair never changes under any further queries. -/
theorem tag_uniqueness_stability (qs ext : List TypeId) (d e : TypeId)
    (hd : d ∈ qs) (_he : e ∈ qs) (hne : d ≠ e) :
    0 < (runQueries qs freshTags).tags d ∧
    (runQueries qs freshTags).tags d ≠ (runQueries qs freshTags).tags e ∧
    (runQueries ext (runQueries qs freshTags)).tags d =
      (runQueries qs freshTags).tags d := by
  have hinv := runQueries_tagInv qs freshTags tagInv_fresh
  have hda := runQueries_assigns qs freshTags hd
  refine ⟨Nat.pos_of_ne_zero hda, ?_, runQueries_preserves_assigned ext hda⟩
  intro heq
  exact hne (hinv.2 d e hda heq)

/-- Witness for C9 at a concrete input: the types 7 and 4, queried in the
order 7, 4, 7, receive the distinct positive tags 1 and 2, and the tag of
7 survives the later queries 9, 4, 7. -/
theorem tag_uniqueness_stability_witness :
    0 < (runQueries [7, 4, 7] freshTags).tags 7 ∧
    (runQueries [7, 4, 7] freshTags).tags 7 ≠ (runQueries [7, 4, 7] freshTags).tags 4 ∧
    (runQueries [9, 4, 7] (runQueries [7, 4, 7] freshTags)).tags 7 =
      (runQueries [7, 4, 7] freshTags).tags 7 :=
  tag_uniqueness_stability [7, 4, 7] [9, 4, 7] 7 4 (by decide) (by decide) (by decide)

/-! ## Dispatch-table and instance-registry operation contracts -/

theorem vtableAdd_table_shape {F : Type} (root d : TypeId) (f : F) (ts : TagState)
    (tbl : List (Option F)) (hd0 : ts.tags d ≠ 0) :
    ∃ dflt : Option F,
      (vtableAdd root d f (ts, tbl)).2 =
        if tbl.length ≤ ts.tags d then
          (tbl ++ List.replicate (ts.tags d + 1 - tbl.length) dflt).set (ts.tags d) (some f)
        else tbl.set (ts.tags d) (some f) := by
  refine ⟨if (ts.getTag root).1 < tbl.length then tbl.getD (ts.getTag root).1 none else none,
          ?_⟩
  simp only [vtableAdd, getTag_of_assigned hd0]
  by_cases hg : tbl.length ≤ ts.tags d <;> simp [hg]

/-- C5: dispatch-table `put` grows the table when the tag is not within
the current capacity, filling each strictly intermediate new slot with the
callable currently stored at the own tag of the root (or empty when that
tag is itself not within bounds), then stores the new callable at the slot
of the tag;
within capacity it just overwrites that slot; re-registration under the
same tag is last-write-wins, as observed through `get`. -/
theorem vtable_put_semantics {F : Type} (root d : TypeId) (f g : F) (ts : TagState)
    (tbl : List (Option F)) (i rt : Nat)
    (hi : ts.tags d = i) (hi0 : i ≠ 0) (hrt : ts.tags root = rt) (hrt0 : rt ≠ 0) :
    (tbl.length ≤ i →
       ((vtableAdd root d f (ts, tbl)).2.length = i + 1 ∧
        (∀ t, tbl.length ≤ t → t < i →
           (vtableAdd root d f (ts, tbl)).2.getD t none =
             (if rt < tbl.length then tbl.getD rt none else none)) ∧
        (vtableAdd root d f (ts, tbl)).2.getD i none = some f)) ∧
    (i < tbl.length →
       (vtableAdd root d f (ts, tbl)).2 = tbl.set i (some f)) ∧
    ((vtableAdd root d g (vtableAdd root d f (ts, tbl))).2.getD i none = some g ∧
     (vtableGet root (vtableAdd root d g (vtableAdd root d f (ts, tbl))).1
        (vtableAdd root d g (vtableAdd root d f (ts, tbl))).2 i).1 = some (some g)) := by
  subst hi
  subst hrt
  have h1 := vtableAdd_assigned root d f ts tbl hi0 hrt0
  have key : ∀ tbl1 : List (Option F), ts.tags d < tbl1.length →
      (vtableAdd root d g (ts, tbl1)).2.getD (ts.tags d) none = some g ∧
      (vtableGet root (vtableAdd root d g (ts, tbl1)).1
         (vtableAdd root d g (ts, tbl1)).2 (ts.tags d)).1 = some (some g) := by
    intro tbl1 hlt
    rw [vtableAdd_assigned root d g ts tbl1 hi0 hrt0]
    simp only [if_neg (Nat.not_le_of_lt hlt)]
    refine ⟨getD_set_self _ _ _ hlt, ?_⟩
    rw [vtableGet_inbounds root ts _ (by rw [List.length_set]; exact hlt)]
    rw [getD_set_self _ _ _ hlt]
  refine ⟨?_, ?_, ?_⟩
  · intro hgrow
    rw [h1]
    simp only [if_pos hgrow]
    exact ⟨grow_length _ _ _ hgrow,
           fun t ht1 ht2 => grow_getD_mid _ _ _ _ hgrow ht1 ht2,
           grow_getD_self _ _ _ _ hgrow⟩
  · intro hin
    rw [h1]
    simp only [if_neg (Nat.not_le_of_lt hin)]
  · rw [h1]
    by_cases hgrow : tbl.length ≤ ts.tags d
    · simp only [if_pos hgrow]
      exact key _ (by rw [grow_length _ _ _ hgrow]; omega)
    · simp only [if_neg hgrow]
      exact key _ (by rw [List.length_set]; omega)

/-- Witness for C5 at a concrete input: type 1 has tag 1, the root 0 has
tag 2, the table is empty; the first put grows the table to length 2, and
re-registration leaves the second callable in the slot. -/
theorem vtable_put_semantics_witness :
    ((vtableAdd 0 1 (10 : Nat)
        (⟨2, fun x => if x = 0 then 2 else if x = 1 then 1 else 0⟩,
         ([] : List (Option Nat)))).2.length = 2) ∧
    ((vtableAdd 0 1 (20 : Nat)
        (vtableAdd 0 1 (10 : Nat)
          (⟨2, fun x => if x = 0 then 2 else if x = 1 then 1 else 0⟩,
           ([] : List (Option Nat))))).2.getD 1 none = some 20) := by
  have h := vtable_put_semantics 0 1 (10 : Nat) (20 : Nat)
    ⟨2, fun x => if x = 0 then 2 else if x = 1 then 1 else 0⟩
    ([] : List (Option Nat)) 1 2 (by decide) (by decide) (by decide) (by decide)
  exact ⟨(h.1 (by decide)).1, h.2.2.1⟩

/-- C6 (counterexample): after a perfectly ordinary single registration
(type 1 under root 0, which leaves the table at length 2 while the own
tag of the root is 2), a lookup at the out-of-bounds tag 5 is redirected to the
tag of the root, which is itself out of bounds, and the vector is then
read out of range — the claimed slot stored for the own tag of the root
does not exist and no callable-or-empty is returned. -/
theorem vtable_get_out_of_range :
    (vtableGet 0 (regHook 0 1 (10 : Nat) (100 : Nat) freshSys).tag
       (regHook 0 1 (10 : Nat) (100 : Nat) freshSys).vt 5).1 = none := by
  decide

/-- C6 (amended): for an in-bounds tag, `get` returns the stored slot; for
an out-of-bounds tag it re-indexes at the own tag of the root, returning
that slot when that tag is in bounds; when the tag of the root is itself out
of bounds the vector read is out of range (undefined behaviour in the
source), not a returned callable-or-empty. -/
theorem vtable_get_semantics {F : Type} (root : TypeId) (ts : TagState)
    (tbl : List (Option F)) (i rt : Nat)
    (hrt : ts.tags root = rt) (hrt0 : rt ≠ 0) :
    (i < tbl.length → (vtableGet root ts tbl i).1 = some (tbl.getD i none)) ∧
    (tbl.length ≤ i → rt < tbl.length →
       (vtableGet root ts tbl i).1 = some (tbl.getD rt none)) ∧
    (tbl.length ≤ i → tbl.length ≤ rt →
       (vtableGet root ts tbl i).1 = none) := by
  subst hrt
  refine ⟨?_, ?_, ?_⟩
  · intro h
    rw [vtableGet_inbounds root ts tbl h]
  · intro h hr
    rw [vtableGet_oob root ts tbl h hrt0]
    simp [hr]
  · intro h hr
    rw [vtableGet_oob root ts tbl h hrt0]
    simp [Nat.not_lt.mpr hr]

/-- Witness for C6 (amended) at a concrete input: with the tag 1 of the root
stored in a table of length 2, an in-bounds lookup returns the stored
slot and an out-of-bounds lookup returns the slot of the root. -/
theorem vtable_get_semantics_witness :
    (vtableGet 0 ⟨2, fun x => if x = 0 then 1 else if x = 3 then 2 else 0⟩
       [some 7, some 9] 0).1 = some (some (7 : Nat)) ∧
    (vtableGet 0 ⟨2, fun x => if x = 0 then 1 else if x = 3 then 2 else 0⟩
       [some 7, some 9] 5).1 = some (some (9 : Nat)) := by
  have h := vtable_get_semantics 0
    ⟨2, fun x => if x = 0 then 1 else if x = 3 then 2 else 0⟩
    [some (7 : Nat), some 9] 5 1 (by decide) (by decide)
  have h0 := vtable_get_semantics 0
    ⟨2, fun x => if x = 0 then 1 else if x = 3 then 2 else 0⟩
    [some (7 : Nat), some 9] 0 1 (by decide) (by decide)
  exact ⟨by rw [h0.1 (by decide)]; decide, by rw [h.2.1 (by decide) (by decide)]; decide⟩

/-- C7: instance-registry `put` stores the instance at the slot of the tag,
growing the backing array with empty slots only (no fallback copying),
and the `get` of the registry returns empty — never a root fallback — for
every out-of-bounds tag. -/
theorem holder_put_get_semantics {I : Type} (d : TypeId) (inst : I) (ts : TagState)
    (hl : List (Option I)) (i : Nat) (hi : ts.tags d = i) (hi0 : i ≠ 0) :
    (hl.length ≤ i →
       ((holderAdd d inst (ts, hl)).2.length = i + 1 ∧
        (holderAdd d inst (ts, hl)).2.getD i none = some inst ∧
        (∀ t, hl.length ≤ t → t ≠ i → (holderAdd d inst (ts, hl)).2.getD t none = none))) ∧
    (i < hl.length →
       (holderAdd d inst (ts, hl)).2 = hl.set i (some inst)) ∧
    (∀ (l : List (Option I)) (t : Nat), l.length ≤ t → holderGet l t = none) := by
  subst hi
  rw [holderAdd_assigned d inst ts hl hi0]
  refine ⟨?_, ?_, ?_⟩
  · intro hgrow
    simp only [if_pos hgrow]
    refine ⟨grow_length _ _ _ hgrow, grow_getD_self _ _ _ _ hgrow, ?_⟩
    intro t ht1 ht2
    rcases Nat.lt_or_ge t (ts.tags d) with hlt | hge
    · exact grow_getD_mid _ _ _ _ hgrow ht1 hlt
    · exact grow_getD_gt _ _ _ _ hgrow (Nat.lt_of_le_of_ne hge (fun he => ht2 he.symm))
  · intro hin
    simp only [if_neg (Nat.not_le_of_lt hin)]
  · intro l t h
    simp [holderGet, h]

/-- Witness for C7 at a concrete input: type 1 has tag 2; putting into a
length-1 registry grows it to length 3, leaves the intermediate slot 1
empty, stores the instance at slot 2, and `get` out of bounds is empty. -/
theorem holder_put_get_semantics_witness :
    ((holderAdd 1 (100 : Nat)
        (⟨2, fun x => if x = 1 then 2 else 0⟩, [some (50 : Nat)])).2.length = 3) ∧
    ((holderAdd 1 (100 : Nat)
        (⟨2, fun x => if x = 1 then 2 else 0⟩, [some (50 : Nat)])).2.getD 1 none = none) ∧
    ((holderAdd 1 (100 : Nat)
        (⟨2, fun x => if x = 1 then 2 else 0⟩, [some (50 : Nat)])).2.getD 2 none = some 100) ∧
    holderGet [some (50 : Nat)] 4 = none := by
  have h := holder_put_get_semantics 1 (100 : Nat)
    ⟨2, fun x => if x = 1 then 2 else 0⟩ [some (50 : Nat)] 2 (by decide) (by decide)
  have hg := h.1 (by decide)
  exact ⟨hg.1, hg.2.2 1 (by decide) (by decide), hg.2.1, h.2.2 _ 4 (by decide)⟩

/-- C10 (frame property): a `put` into either structure with a tag within
the current capacity changes only the slot of that tag and keeps the length;
with a tag not within capacity it keeps every previously existing slot and
the length becomes exactly tag + 1. -/
theorem put_frame_property {F I : Type} (root d : TypeId) (f : F) (inst : I)
    (ts : TagState) (tbl : List (Option F)) (hl : List (Option I)) (i : Nat)
    (hi : ts.tags d = i) (hi0 : i ≠ 0) :
    (i < tbl.length →
       ((vtableAdd root d f (ts, tbl)).2.length = tbl.length ∧
        ∀ t, t ≠ i → (vtableAdd root d f (ts, tbl)).2.getD t none = tbl.getD t none)) ∧
    (tbl.length ≤ i →
       ((vtableAdd root d f (ts, tbl)).2.length = i + 1 ∧
        ∀ t, t < tbl.length → (vtableAdd root d f (ts, tbl)).2.getD t none = tbl.getD t none)) ∧
    (i < hl.length →
       ((holderAdd d inst (ts, hl)).2.length = hl.length ∧
        ∀ t, t ≠ i → (holderAdd d inst (ts, hl)).2.getD t none = hl.getD t none)) ∧
    (hl.length ≤ i →
       ((holderAdd d inst (ts, hl)).2.length = i + 1 ∧
        ∀ t, t < hl.length → (holderAdd d inst (ts, hl)).2.getD t none = hl.getD t none)) := by
  subst hi
  obtain ⟨dflt, hshape⟩ := vtableAdd_table_shape root d f ts tbl hi0
  rw [holderAdd_assigned d inst ts hl hi0]
  refine ⟨?_, ?_, ?_, ?_⟩
  · intro hin
    rw [hshape]
    simp only [if_neg (Nat.not_le_of_lt hin)]
    exact ⟨List.length_set _ _ _, fun t ht => getD_set_ne _ _ _ ht⟩
  · intro hgrow
    rw [hshape]
    simp only [if_pos hgrow]
    exact ⟨grow_length _ _ _ hgrow, fun t ht => grow_getD_lt _ _ _ _ hgrow ht⟩
  · intro hin
    simp only [if_neg (Nat.not_le_of_lt hin)]
    exact ⟨List.length_set _ _ _, fun t ht => getD_set_ne _ _ _ ht⟩
  · intro hgrow
    simp only [if_pos hgrow]
    exact ⟨grow_length _ _ _ hgrow, fun t ht => grow_getD_lt _ _ _ _ hgrow ht⟩

/-- Witness for C10 at a concrete input: type 1 has tag 2; an in-capacity
put into a length-3 table keeps length and the other slots, and an
out-of-capacity put into a length-1 registry keeps slot 0. -/
theorem put_frame_property_witness :
    ((vtableAdd 0 1 (10 : Nat)
        (⟨2, fun x => if x = 1 then 2 else 0⟩,
         [some (5 : Nat), none, some 6])).2.length = 3) ∧
    ((vtableAdd 0 1 (10 : Nat)
        (⟨2, fun x => if x = 1 then 2 else 0⟩,
         [some (5 : Nat), none, some 6])).2.getD 0 none = some 5) ∧
    ((holderAdd 1 (100 : Nat)
        (⟨2, fun x => if x = 1 then 2 else 0⟩, [some (50 : Nat)])).2.length = 3) ∧
    ((holderAdd 1 (100 : Nat)
        (⟨2, fun x => if x = 1 then 2 else 0⟩, [some (50 : Nat)])).2.getD 0 none = some 50) := by
  have h := put_frame_property 0 1 (10 : Nat) (100 : Nat)
    ⟨2, fun x => if x = 1 then 2 else 0⟩
    [some (5 : Nat), none, some 6] [some (50 : Nat)] 2 (by decide) (by decide)
  have hv := h.1 (by decide)
  have hh := h.2.2.2 (by decide)
  exact ⟨hv.1, by rw [hv.2 0 (by decide)]; decide, hh.1, by rw [hh.2 0 (by decide)]; decide⟩

/-! ## Fallback inheritance ordering -/

/-- C3: with the root handler `f0` stored at the (in-bounds) root tag
and the slot of subtype `c` not yet created, dispatch on `c` resolves `f0`
(conjunct 1); a later registration for `d` that grows the table past the
tag of `c` creates the slot of `c` holding a copy of `f0`, and dispatch
still resolves `f0` (conjuncts 2-3); a root re-registration performed
after the slot of `c` exists is not propagated: that slot keeps the copy
made at slot-creation
time and dispatch still resolves `f0` (conjuncts 4-5). -/
theorem fallback_inheritance_ordering {F : Type} (root c d : TypeId) (f0 fD g0 : F)
    (ts : TagState) (tbl : List (Option F)) (b tc td : Nat)
    (hb : ts.tags root = b) (hc : ts.tags c = tc) (hdt : ts.tags d = td)
    (hb0 : b ≠ 0) (hc0 : tc ≠ 0) (hd0 : td ≠ 0)
    (hbin : b < tbl.length) (hroot : tbl.getD b none = some f0)
    (hcout : tbl.length ≤ tc) (hcd : tc < td) :
    (vtableGet root ts tbl tc).1 = some (some f0) ∧
    (vtableAdd root d fD (ts, tbl)).2.getD tc none = some f0 ∧
    (vtableGet root (vtableAdd root d fD (ts, tbl)).1
       (vtableAdd root d fD (ts, tbl)).2 tc).1 = some (some f0) ∧
    (vtableAdd root root g0 (vtableAdd root d fD (ts, tbl))).2.getD tc none = some f0 ∧
    (vtableGet root (vtableAdd root root g0 (vtableAdd root d fD (ts, tbl))).1
       (vtableAdd root root g0 (vtableAdd root d fD (ts, tbl))).2 tc).1
      = some (some f0) := by
  subst hb
  subst hc
  subst hdt
  have hgrow : tbl.length ≤ ts.tags d := Nat.le_trans hcout (Nat.le_of_lt hcd)
  have hA : vtableAdd root d fD (ts, tbl) =
      (ts, (tbl ++ List.replicate (ts.tags d + 1 - tbl.length) (some f0)).set
             (ts.tags d) (some fD)) := by
    rw [vtableAdd_assigned root d fD ts tbl hd0 hb0, if_pos hgrow, if_pos hbin, hroot]
  have hlen1 : ((tbl ++ List.replicate (ts.tags d + 1 - tbl.length) (some f0)).set
      (ts.tags d) (some fD)).length = ts.tags d + 1 := grow_length _ _ _ hgrow
  have hslot1 : ((tbl ++ List.replicate (ts.tags d + 1 - tbl.length) (some f0)).set
      (ts.tags d) (some fD)).getD (ts.tags c) none = some f0 :=
    grow_getD_mid _ _ _ _ hgrow hcout hcd
  have hcb : ts.tags c ≠ ts.tags root := by omega
  have hbin1 : ts.tags root <
      ((tbl ++ List.replicate (ts.tags d + 1 - tbl.length) (some f0)).set
         (ts.tags d) (some fD)).length := by
    rw [hlen1]; omega
  have hcin1 : ts.tags c <
      ((tbl ++ List.replicate (ts.tags d + 1 - tbl.length) (some f0)).set
         (ts.tags d) (some fD)).length := by
    rw [hlen1]; omega
  have hcin2 : ts.tags c <
      (((tbl ++ List.replicate (ts.tags d + 1 - tbl.length) (some f0)).set
          (ts.tags d) (some fD)).set (ts.tags root) (some g0)).length := by
    rw [List.length_set, hlen1]; omega
  have hB : vtableAdd root root g0
      (ts, (tbl ++ List.replicate (ts.tags d + 1 - tbl.length) (some f0)).set
             (ts.tags d) (some fD)) =
      (ts, ((tbl ++ List.replicate (ts.tags d + 1 - tbl.length) (some f0)).set
              (ts.tags d) (some fD)).set (ts.tags root) (some g0)) := by
    rw [vtableAdd_assigned root root g0 ts
          ((tbl ++ List.replicate (ts.tags d + 1 - tbl.length) (some f0)).set
             (ts.tags d) (some fD)) hb0 hb0,
        if_neg (Nat.not_le_of_lt hbin1)]
  refine ⟨?_, ?_, ?_, ?_, ?_⟩
  · rw [vtableGet_oob root ts tbl hcout hb0, if_pos hbin, hroot]
  · rw [hA]
    exact hslot1
  · rw [hA]
    exact (congrArg Prod.fst (vtableGet_inbounds root ts
        ((tbl ++ List.replicate (ts.tags d + 1 - tbl.length) (some f0)).set
           (ts.tags d) (some fD)) hcin1)).trans
      (congrArg some hslot1)
  · rw [hA, hB]
    exact (getD_set_ne _ _ _ hcb).trans hslot1
  · rw [hA, hB]
    exact (congrArg Prod.fst (vtableGet_inbounds root ts
        (((tbl ++ List.replicate (ts.tags d + 1 - tbl.length) (some f0)).set
            (ts.tags d) (some fD)).set (ts.tags root) (some g0)) hcin2)).trans
      (congrArg some ((getD_set_ne _ _ _ hcb).trans hslot1))

/-- Witness for C3 at a concrete input: root 0 has tag 1 with handler 10
stored in a length-2 table, subtype 2 has the uncreated tag 2 and type 3
has tag 3; dispatch on the subtype resolves 10 now, and still resolves the
copy 10 after type 3 grows the table and the root is re-registered. -/
theorem fallback_inheritance_ordering_witness :
    (vtableGet 0
       ⟨3, fun x => if x = 0 then 1 else if x = 2 then 2 else if x = 3 then 3 else 0⟩
       [none, some (10 : Nat)] 2).1 = some (some 10) ∧
    (vtableAdd 0 0 (40 : Nat)
       (vtableAdd 0 3 (30 : Nat)
         (⟨3, fun x => if x = 0 then 1 else if x = 2 then 2 else if x = 3 then 3 else 0⟩,
          [none, some (10 : Nat)]))).2.getD 2 none = some 10 := by
  have h := fallback_inheritance_ordering 0 2 3 (10 : Nat) 30 40
    ⟨3, fun x => if x = 0 then 1 else if x = 2 then 2 else if x = 3 then 3 else 0⟩
    [none, some (10 : Nat)] 1 2 3 (by decide) (by decide) (by decide) (by decide)
    (by decide) (by decide) (by decide) (by decide) (by decide) (by decide)
  exact ⟨h.1, h.2.2.2.1⟩

/-! ## Dispatcher: end-to-end correctness and behaviour on misses -/

/-- C1: registering an operation whose per-type logic returns 1 for
concrete type `e1` and one returning 2 for concrete type `e2`, under the
same context, root and return type (the `CTestEntity1`/`CTestEntity2`
scenario of `testing.cpp`), and then invoking the dispatcher first on an
`e1`-typed object and then on an `e2`-typed object returns 1 and then 2,
each paired with the instance registered for that type. -/
theorem dispatch_correctness (root e1 e2 : TypeId) (i1 i2 : Nat)
    (h1r : e1 ≠ root) (h2r : e2 ≠ root) (h12 : e1 ≠ e2) :
    callValue root e1 (regHook root e2 2 i2 (regHook root e1 1 i1 freshSys)) = some 1 ∧
    (callOperation root e1 (regHook root e2 2 i2 (regHook root e1 1 i1 freshSys))).2
      = some (1, i1) ∧
    (callOperation root e2
       (callOperation root e1 (regHook root e2 2 i2 (regHook root e1 1 i1 freshSys))).1).2
      = some (2, i2) := by
  have hr1 : root ≠ e1 := Ne.symm h1r
  have hr2 : root ≠ e2 := Ne.symm h2r
  have h21 : e2 ≠ e1 := Ne.symm h12
  refine ⟨?_, ?_, ?_⟩ <;>
    simp [callValue, regHook, vtableAdd, holderAdd, TagState.getTag, freshSys, freshTags,
          callOperation, vtableGet, holderGet, h1r, h2r, h12, hr1, hr2, h21]

/-- Witness for C1 at the concrete input of `testing.cpp`: root 0 with
concrete types 1 and 2 and instances 101 and 102. -/
theorem dispatch_correctness_witness :
    callValue 0 1 (regHook 0 2 2 102 (regHook 0 1 1 101 freshSys)) = some 1 ∧
    (callOperation 0 1 (regHook 0 2 2 102 (regHook 0 1 1 101 freshSys))).2
      = some (1, 101) ∧
    (callOperation 0 2
       (callOperation 0 1 (regHook 0 2 2 102 (regHook 0 1 1 101 freshSys))).1).2
      = some (2, 102) :=
  dispatch_correctness 0 1 2 101 102 (by decide) (by decide) (by decide)

/-- C2: the dispatcher does NOT surface a distinguished, reportable error
on a miss.  At each failing input below, resolution produces an empty
callable or an out-of-range vector read and the call invokes through it —
undefined behaviour (the `none` marker), never a reported
`UnregisteredOperand` failure: (1) dispatch on a root-typed object whose
slot exists but is empty; (2) dispatch on an unregistered subtype whose
tag, and the tag of the root, lie outside the table; (3) dispatch before any
registration at all. -/
theorem unregistered_dispatch_not_reported :
    ((callOperation 0 0 (regHook 0 2 (2 : Nat) (102 : Nat) (regHook 0 1 1 101 freshSys))).2
       = none) ∧
    ((callOperation 0 3 (regHook 0 1 (1 : Nat) (101 : Nat) freshSys)).2 = none) ∧
    ((callOperation (F := Nat) (I := Nat) 0 1 freshSys).2 = none) := by
  decide

theorem match_grow_gen {F I : Type} (vt : List (Option F)) (hd : List (Option I))
    (dflt : Option F) (idx : Nat) (f : F) (inst : I)
    (hlen : vt.length = hd.length)
    (hmatch : ∀ t, (vt.getD t none).isSome ↔ (hd.getD t none).isSome)
    (hS : vt.length ≤ idx)
    (hmid : ∀ t, vt.length ≤ t → t < idx → dflt = none) (t : Nat) :
    (((vt ++ List.replicate (idx + 1 - vt.length) dflt).set idx (some f)).getD t none).isSome
      ↔ (((hd ++ List.replicate (idx + 1 - hd.length) none).set idx
            (some inst)).getD t none).isSome := by
  have hS2 : hd.length ≤ idx := by omega
  by_cases h1 : t < vt.length
  · rw [grow_getD_lt _ _ _ _ hS h1, grow_getD_lt _ _ _ _ hS2 (by omega)]
    exact hmatch t
  · by_cases h2 : t = idx
    · subst h2
      rw [grow_getD_self _ _ _ _ hS, grow_getD_self _ _ _ _ hS2]
      simp
    · by_cases h3 : t < idx
      · rw [grow_getD_mid _ _ _ _ hS (by omega) h3, hmid t (by omega) h3,
            grow_getD_mid _ _ _ _ hS2 (by omega) h3]
        exact Iff.rfl
      · rw [grow_getD_gt _ _ _ _ hS (by omega), grow_getD_gt _ _ _ _ hS2 (by omega)]
        exact Iff.rfl

theorem match_set_both {F I : Type} (vt : List (Option F)) (hd : List (Option I))
    (idx : Nat) (f : F) (inst : I) (hlen : vt.length = hd.length)
    (hmatch : ∀ t, (vt.getD t none).isSome ↔ (hd.getD t none).isSome)
    (hidx : idx < vt.length) (t : Nat) :
    (((vt.set idx (some f)).getD t none).isSome)
      ↔ (((hd.set idx (some inst)).getD t none).isSome) := by
  by_cases h : t = idx
  · subst h
    rw [getD_set_self _ _ _ hidx, getD_set_self _ _ _ (by omega)]
    simp
  · rw [getD_set_ne _ _ _ h, getD_set_ne _ _ _ h]
    exact hmatch t

theorem hookInv_step {F I : Type} (root d : TypeId) (f : F) (inst : I)
    (s : SysState F I) (h : hookInv root s) : hookInv root (regHook root d f inst s) := by
  obtain ⟨hlen, hmatch, hle, hsize⟩ := h
  by_cases hd0 : s.tag.tags d = 0
  · -- the hook assigns a new tag: the index is count + 1 and the table grows
    have hS : s.vt.length ≤ s.tag.count + 1 := by
      rcases hsize with ⟨h1, h2⟩ | ⟨_, h2 | ⟨h2, h3⟩⟩ <;> omega
    have hSH : s.hd.length ≤ s.tag.count + 1 := by omega
    by_cases hr0 : s.tag.tags root = 0
    · -- the root tag is also unassigned: this is the start state
      have hSN0 : s.vt.length = 0 := by
        rcases hsize with ⟨h1, _⟩ | ⟨h2, _⟩
        · exact h1
        · exact (h2 hr0).elim
      have hN0 : s.tag.count = 0 := by
        rcases hsize with ⟨_, h1⟩ | ⟨h2, _⟩
        · exact h1
        · exact (h2 hr0).elim
      by_cases hdr : root = d
      · -- the very first hook registers the root type itself
        subst hdr
        have htA : (⟨s.tag.count + 1,
            fun x => if x = root then s.tag.count + 1 else s.tag.tags x⟩ :
            TagState).tags root ≠ 0 := by simp
        have hnlt : ¬ (s.tag.count + 1 < s.vt.length) := by omega
        have hreg : regHook root root f inst s =
            ⟨⟨s.tag.count + 1,
              fun x => if x = root then s.tag.count + 1 else s.tag.tags x⟩,
             (s.vt ++ List.replicate (s.tag.count + 1 + 1 - s.vt.length) none).set
               (s.tag.count + 1) (some f),
             (s.hd ++ List.replicate (s.tag.count + 1 + 1 - s.hd.length) none).set
               (s.tag.count + 1) (some inst)⟩ := by
          simp [regHook, vtableAdd, holderAdd, getTag_of_unassigned hd0,
                getTag_of_assigned htA, hS, hSH, hnlt]
        rw [hreg]
        refine ⟨?_, ?_, ?_, ?_⟩
        · rw [grow_length _ _ _ hS, grow_length _ _ _ hSH]
        · exact fun t => match_grow_gen s.vt s.hd none (s.tag.count + 1) f inst hlen
            hmatch hS (fun _ _ _ => rfl) t
        · intro e
          have := hle e
          dsimp only
          split <;> omega
        · refine Or.inr ⟨by simp, Or.inl ?_⟩
          rw [grow_length _ _ _ hS]
      · -- the first hook registers a non-root type: the root tag is assigned
        -- on the fly while the table grows
        have hdr2 : d ≠ root := fun he => hdr he.symm
        have htA : (⟨s.tag.count + 1,
            fun x => if x = d then s.tag.count + 1 else s.tag.tags x⟩ :
            TagState).tags root = 0 := by simp [hdr, hr0]
        have hnlt : ¬ (s.tag.count + 1 + 1 < s.vt.length) := by omega
        have htB : (⟨s.tag.count + 1 + 1,
            fun x => if x = root then s.tag.count + 1 + 1
              else if x = d then s.tag.count + 1 else s.tag.tags x⟩ :
            TagState).tags d ≠ 0 := by
          simp [hdr2]
        have hreg : regHook root d f inst s =
            ⟨⟨s.tag.count + 1 + 1,
              fun x => if x = root then s.tag.count + 1 + 1
                else if x = d then s.tag.count + 1 else s.tag.tags x⟩,
             (s.vt ++ List.replicate (s.tag.count + 1 + 1 - s.vt.length) none).set
               (s.tag.count + 1) (some f),
             (s.hd ++ List.replicate (s.tag.count + 1 + 1 - s.hd.length) none).set
               (s.tag.count + 1) (some inst)⟩ := by
          simp [regHook, vtableAdd, holderAdd, getTag_of_unassigned hd0,
                getTag_of_unassigned htA, getTag_of_assigned htB, hS, hSH, hnlt, hdr2]
        rw [hreg]
        refine ⟨?_, ?_, ?_, ?_⟩
        · rw [grow_length _ _ _ hS, grow_length _ _ _ hSH]
        · exact fun t => match_grow_gen s.vt s.hd none (s.tag.count + 1) f inst hlen
            hmatch hS (fun _ _ _ => rfl) t
        · intro e
          have := hle e
          dsimp only
          split
          · omega
          · split <;> omega
        · refine Or.inr ⟨by simp, Or.inr ⟨?_, by simp⟩⟩
          rw [grow_length _ _ _ hS]
    · -- the root tag is already assigned; d gets the fresh tag count + 1
      have hdr : root ≠ d := fun he => hr0 (by rw [he]; exact hd0)
      have htA : (⟨s.tag.count + 1,
          fun x => if x = d then s.tag.count + 1 else s.tag.tags x⟩ :
          TagState).tags root ≠ 0 := by simp [hdr, hr0]
      have htAd : (⟨s.tag.count + 1,
          fun x => if x = d then s.tag.count + 1 else s.tag.tags x⟩ :
          TagState).tags d ≠ 0 := by simp
      have hreg : regHook root d f inst s =
          ⟨⟨s.tag.count + 1,
            fun x => if x = d then s.tag.count + 1 else s.tag.tags x⟩,
           (s.vt ++ List.replicate (s.tag.count + 1 + 1 - s.vt.length)
              (if s.tag.tags root < s.vt.length then s.vt.getD (s.tag.tags root) none
               else none)).set (s.tag.count + 1) (some f),
           (s.hd ++ List.replicate (s.tag.count + 1 + 1 - s.hd.length) none).set
             (s.tag.count + 1) (some inst)⟩ := by
        simp [regHook, vtableAdd, holderAdd, getTag_of_unassigned hd0,
              getTag_of_assigned htA, getTag_of_assigned htAd, hS, hSH, hdr]
      rw [hreg]
      refine ⟨?_, ?_, ?_, ?_⟩
      · rw [grow_length _ _ _ hS, grow_length _ _ _ hSH]
      · refine fun t => match_grow_gen s.vt s.hd _ (s.tag.count + 1) f inst hlen
          hmatch hS ?_ t
        intro t h1 h2
        rcases hsize with ⟨h3, h4⟩ | ⟨h3, h4 | ⟨h4, h5⟩⟩
        · exfalso
          have := hle root
          omega
        · exfalso
          omega
        · rw [if_neg (by omega)]
      · intro e
        have := hle e
        dsimp only
        split <;> omega
      · refine Or.inr ⟨by simpa [hdr] using hr0, Or.inl ?_⟩
        rw [grow_length _ _ _ hS]
  · -- the tag of d is already assigned
    have ht0 : s.tag.tags d ≤ s.tag.count := hle d
    by_cases hin : s.tag.tags d < s.vt.length
    · -- in-bounds re-registration: both tables are overwritten in place
      have hreg : regHook root d f inst s =
          ⟨s.tag, s.vt.set (s.tag.tags d) (some f),
           s.hd.set (s.tag.tags d) (some inst)⟩ := by
        simp [regHook, vtableAdd, holderAdd, getTag_of_assigned hd0,
              Nat.not_le_of_lt hin,
              Nat.not_le_of_lt (by omega : s.tag.tags d < s.hd.length)]
      rw [hreg]
      refine ⟨?_, ?_, hle, ?_⟩
      · rw [List.length_set, List.length_set]
        exact hlen
      · exact fun t => match_set_both s.vt s.hd (s.tag.tags d) f inst hlen hmatch hin t
      · rcases hsize with ⟨h3, h4⟩ | ⟨h3, h4 | ⟨h4, h5⟩⟩
        · exact Or.inl ⟨by rw [List.length_set]; exact h3, h4⟩
        · exact Or.inr ⟨h3, Or.inl (by rw [List.length_set]; exact h4)⟩
        · exact Or.inr ⟨h3, Or.inr ⟨by rw [List.length_set]; exact h4, h5⟩⟩
    · -- assigned tag at or past the end: only possible when the trailing
      -- slot is the own slot of the root; the table grows by one and is overwritten
      have hB2 : s.vt.length = s.tag.count ∧ s.tag.tags root = s.tag.count ∧
          s.tag.tags d = s.tag.count := by
        rcases hsize with ⟨h3, h4⟩ | ⟨h3, h4 | ⟨h4, h5⟩⟩
        · exfalso
          omega
        · exfalso
          omega
        · exact ⟨h4, h5, by omega⟩
      have hroot0 : s.tag.tags root ≠ 0 := by omega
      have hS : s.vt.length ≤ s.tag.tags d := by omega
      have hSH : s.hd.length ≤ s.tag.tags d := by omega
      have hreg : regHook root d f inst s =
          ⟨s.tag,
           (s.vt ++ List.replicate (s.tag.tags d + 1 - s.vt.length)
              (if s.tag.tags root < s.vt.length then s.vt.getD (s.tag.tags root) none
               else none)).set (s.tag.tags d) (some f),
           (s.hd ++ List.replicate (s.tag.tags d + 1 - s.hd.length) none).set
             (s.tag.tags d) (some inst)⟩ := by
        simp [regHook, vtableAdd, holderAdd, getTag_of_assigned hd0,
              getTag_of_assigned hroot0, hS, hSH]
      rw [hreg]
      refine ⟨?_, ?_, hle, ?_⟩
      · rw [grow_length _ _ _ hS, grow_length _ _ _ hSH]
      · refine fun t => match_grow_gen s.vt s.hd _ (s.tag.tags d) f inst hlen
          hmatch hS ?_ t
        intro t h1 h2
        rw [if_neg (by omega)]
      · refine Or.inr ⟨hroot0, Or.inl ?_⟩
        dsimp only
        rw [grow_length _ _ _ hS]
        omega

theorem hookInv_fresh {F I : Type} (root : TypeId) :
    hookInv root (freshSys (F := F) (I := I)) := by
  refine ⟨rfl, fun t => ?_, fun e => Nat.le_refl 0, Or.inl ⟨rfl, rfl⟩⟩
  simp [freshSys]

theorem runHooks_cons {F I : Type} (root : TypeId) (hk : TypeId × F × I)
    (hs : List (TypeId × F × I)) (s : SysState F I) :
    runHooks root (hk :: hs) s = runHooks root hs (regHook root hk.1 hk.2.1 hk.2.2 s) := rfl

theorem runHooks_inv {F I : Type} (root : TypeId) (hs : List (TypeId × F × I))
    (s : SysState F I) (h : hookInv root s) : hookInv root (runHooks root hs s) := by
  induction hs generalizing s with
  | nil => exact h
  | cons hk hs ih => exact ih _ (hookInv_step root hk.1 hk.2.1 hk.2.2 s h)

/-- C4: after any sequence of registration hooks run from the start state,
a dispatch-table slot is occupied exactly when the instance-registry slot
at the same tag is occupied. -/
theorem tables_parallel_occupancy {F I : Type} (root : TypeId)
    (hooks : List (TypeId × F × I)) (t : Nat) :
    ((runHooks root hooks freshSys).vt.getD t none).isSome ↔
    ((runHooks root hooks freshSys).hd.getD t none).isSome :=
  (runHooks_inv root hooks freshSys (hookInv_fresh root)).2.1 t
